import Mathlib

/-
Verification of the PillowFight workload driver
(ocs_ci/ocs/pillowfight.py): a shallow embedding of
`parse_pillowfight_log`, `sanity_check` and the completion-polling loop of
`run_pillowfights`, together with theorems settling the specification
claims about them.
-/

set_option autoImplicit false

namespace Pillowfight

/-! ## Python string primitives

The parser works on `List Char`.  The helpers below model the exact
Python string operations used by `parse_pillowfight_log`:
`str.startswith`, `str.split(sep)`, `str.split()` (whitespace split),
`str.strip`, `str.replace` and `int(...)`. -/

/-- Characters treated as whitespace by the Python operations
`str.split()` and `str.strip()`; modelled as the ASCII whitespace
characters that can occur in the logs. -/
def isSpaceCh (c : Char) : Bool :=
  c == ' ' || c == '\t' || c == '\n' || c == '\r'

/-- Python `s.startswith(pat)`: `strStartsWith pat s`. -/
def strStartsWith : List Char → List Char → Bool
  | [], _ => true
  | _ :: _, [] => false
  | p :: ps, c :: cs => p == c && strStartsWith ps cs

/-- Python `s.split(sep)` for a one-character separator: empty fields are
kept and the result is never the empty list (`"".split(sep) == [""]`). -/
def splitOnChar (sep : Char) : List Char → List (List Char)
  | [] => [[]]
  | c :: rest =>
    match splitOnChar sep rest with
    | [] => [[c]]
    | h :: t => if c == sep then [] :: h :: t else (c :: h) :: t

/-- Helper for `splitWs`: accumulates the current (reversed) field. -/
def splitWsAux : List Char → List Char → List (List Char)
  | [], acc => if acc.isEmpty then [] else [acc.reverse]
  | c :: rest, acc =>
    if isSpaceCh c then
      if acc.isEmpty then splitWsAux rest []
      else acc.reverse :: splitWsAux rest []
    else splitWsAux rest (c :: acc)

/-- Python `s.split()` with no argument: split on runs of whitespace,
discarding empty fields. -/
def splitWs (cs : List Char) : List (List Char) := splitWsAux cs []

/-- Python `s.strip()`: drop whitespace from both ends. -/
def pyStrip (cs : List Char) : List Char :=
  ((cs.dropWhile isSpaceCh).reverse.dropWhile isSpaceCh).reverse

/-- Value of a string of decimal digits. -/
def digitsToNat (ds : List Char) : Nat :=
  ds.foldl (fun a c => a * 10 + (c.toNat - 48)) 0

/-- Python `int(s)` on a string: strip whitespace, allow one optional
sign, then a nonempty run of decimal digits; `none` models the
`ValueError` raised otherwise.  (Underscore digit grouping and non-ASCII
digits are not modelled; no input in the claims uses them.) -/
def pyInt (s : List Char) : Option Int :=
  match pyStrip s with
  | '+' :: ds =>
    if ds.isEmpty || !(ds.all Char.isDigit) then none
    else some ((digitsToNat ds : Int))
  | '-' :: ds =>
    if ds.isEmpty || !(ds.all Char.isDigit) then none
    else some (-(digitsToNat ds : Int))
  | ds =>
    if ds.isEmpty || !(ds.all Char.isDigit) then none
    else some ((digitsToNat ds : Int))

/-! ## The histogram-line pattern

`parse_pillowfight_log` recognizes histogram bucket lines with
`re.match("^\\[\\d+ +- \\d+ *\\][um]s \\|#* - \\d+", dline)`.
Every pair of adjacent greedy pieces of that pattern draws from disjoint
character sets, so the backtracking semantics of `re` coincides with
deterministic maximal munch, which is what the combinators below
implement. -/

/-- Match one literal character, returning the rest of the input. -/
def chomp (c : Char) : List Char → Option (List Char)
  | [] => none
  | x :: xs => if x == c then some xs else none

/-- Match one-or-more characters satisfying `p` (greedy `+`). -/
def chompPlus (p : Char → Bool) : List Char → Option (List Char)
  | [] => none
  | x :: xs => if p x then some (xs.dropWhile p) else none

/-- Match one character out of a two-character class (`[um]`). -/
def chompClass (a b : Char) : List Char → Option (List Char)
  | [] => none
  | x :: xs => if x == a || x == b then some xs else none

/-- Embedding of
`re.match("^\\[\\d+ +- \\d+ *\\][um]s \\|#* - \\d+", line)`:
`true` exactly when the pattern matches a prefix of `line`. -/
def histoMatch (cs : List Char) : Bool :=
  (do
    let r ← chomp '[' cs
    let r ← chompPlus Char.isDigit r
    let r ← chompPlus (fun c => c == ' ') r
    let r ← chomp '-' r
    let r ← chomp ' ' r
    let r ← chompPlus Char.isDigit r
    let r := r.dropWhile (fun c => c == ' ')
    let r ← chomp ']' r
    let r ← chompClass 'u' 'm' r
    let r ← chomp 's' r
    let r ← chomp ' ' r
    let r ← chomp '|' r
    let r := r.dropWhile (fun c => c == '#')
    let r ← chomp ' ' r
    let r ← chomp '-' r
    let r ← chomp ' ' r
    let _ ← chompPlus Char.isDigit r
    pure ()).isSome

/-! ## The metrics record -/

/-- One bucket of the response-time histogram:
`{"minindx": i1, "number": int(parts[3])}` in the source. -/
structure Bucket where
  minindx : Int
  number : Int
  deriving DecidableEq, Repr

/-- `resp_hist` is a Python dict; modelled as an insertion-ordered
association list. -/
abbrev Hist := List (Int × Bucket)

/-- Python dict assignment `d[k] = v`: replace in place when the key is
present, append otherwise (insertion order preserved). -/
def dictUpdate {α β : Type} [DecidableEq α] (d : List (α × β)) (k : α) (v : β) :
    List (α × β) :=
  if d.any (fun p => decide (p.1 = k)) then
    d.map (fun p => if p.1 = k then (k, v) else p)
  else d ++ [(k, v)]

/-- Python dict lookup `d[k]` as an `Option`. -/
def dictGet {α β : Type} [DecidableEq α] (d : List (α × β)) (k : α) : Option β :=
  (d.find? (fun p => decide (p.1 = k))).map Prod.snd

/-- The dictionary returned by `parse_pillowfight_log`:
`{"opspersec": ops_per_sec, "resptimes": resp_hist}`. -/
structure PFData where
  opspersec : List Int
  resptimes : Hist
  deriving DecidableEq, Repr

/-! ## parse_pillowfight_log -/

/-- The literal prefix `"OPS/SEC"` tested by `dline.startswith`. -/
def opsMarker : List Char := "OPS/SEC".toList

/-- The unit token `"ms"` compared against `parts[2]`. -/
def msTok : List Char := "ms".toList

/-- The unit token `"us"`. -/
def usTok : List Char := "us".toList

/-- The characters replaced by spaces before splitting a histogram line:
`for element in ["[", "]", "|", "-", "#"]: dline = dline.replace(element, " ")`. -/
def cleanLine (cs : List Char) : List Char :=
  cs.map (fun c =>
    if c == '[' || c == ']' || c == '|' || c == '-' || c == '#' then ' ' else c)

/-- The body of the histogram branch after the regex matched, acting on
the whitespace-split cleaned line:
`i1 = int(parts[0]); i2 = int(parts[1]);`
`if parts[2] == "ms": i1 *= 1000; i2 *= 1000;`
`resp_hist[i2] = {"minindx": i1, "number": int(parts[3])}`.
Outer `none` models an uncaught `IndexError` (a missing `parts[i]`),
inner `none` a `ValueError` caught by the per-line handler, and
`some (some (k, v))` the dict write `resp_hist[k] = v`. -/
def bucketFields (parts : List (List Char)) : Option (Option (Int × Bucket)) :=
  match parts.get? 0 with
  | none => none
  | some p0 =>
    match pyInt p0 with
    | none => some none
    | some i1 =>
      match parts.get? 1 with
      | none => none
      | some p1 =>
        match pyInt p1 with
        | none => some none
        | some i2 =>
          match parts.get? 2 with
          | none => none
          | some p2 =>
            let j1 := if p2 = msTok then i1 * 1000 else i1
            let j2 := if p2 = msTok then i2 * 1000 else i2
            match parts.get? 3 with
            | none => none
            | some p3 =>
              match pyInt p3 with
              | none => some none
              | some n => some (some (j2, ⟨j1, n⟩))

/-- The histogram half of the per-line body: if the regex matches, clean
the line, split it and perform the dict write.  `none` is an uncaught
`IndexError` escaping `parse_pillowfight_log`. -/
def processBucket (st : PFData) (line : List Char) : Option PFData :=
  if histoMatch line then
    match bucketFields (splitWs (cleanLine line)) with
    | none => none
    | some none => some st
    | some (some (k, v)) => some { st with resptimes := dictUpdate st.resptimes k v }
  else some st

/-- One iteration of `for dline in lines` with its `try/except ValueError`:
the `OPS/SEC` branch (`dfields = dline.split(" ");`
`dnumb = int(dfields[-1].strip()); ops_per_sec.append(dnumb)`) followed by
the histogram branch.  A `ValueError` in the `OPS/SEC` branch aborts the
line before the histogram branch runs but keeps earlier state. -/
def processLine (st : PFData) (line : List Char) : Option PFData :=
  if strStartsWith opsMarker line then
    match pyInt (pyStrip ((splitOnChar ' ' line).getLastD [])) with
    | none => some st
    | some n => processBucket { st with opspersec := st.opspersec ++ [n] } line
  else processBucket st line

/-- The `for dline in lines` loop. -/
def parseLines : PFData → List (List Char) → Option PFData
  | st, [] => some st
  | st, l :: rest =>
    match processLine st l with
    | none => none
    | some st1 => parseLines st1 rest

/-- `parse_pillowfight_log(data_from_log)`: split the input on newlines
and fold the per-line processing over the lines, starting from empty
accumulators.  `none` models an exception escaping the routine. -/
def parse_pillowfight_log (data_from_log : String) : Option PFData :=
  parseLines ⟨[], []⟩ (splitOnChar '\n' data_from_log.toList)

/-! ## sanity_check -/

/-- `MIN_ACCEPTABLE_OPS_PER_SEC = 2000`. -/
def MIN_ACCEPTABLE_OPS_PER_SEC : Int := 2000

/-- `MAX_ACCEPTABLE_RESPONSE_TIME = 2000`.  It is compared against
`max(keys)/1000`, a Python float; arithmetic on the values in play is
exact, so it is modelled as a rational. -/
def MAX_ACCEPTABLE_RESPONSE_TIME : ℚ := 2000

/-- Python `min` over a list of ints (`none` models the `ValueError` on
an empty sequence). -/
def listMinInt : List Int → Option Int
  | [] => none
  | x :: xs => some (xs.foldl min x)

/-- Python `max` over a list of ints. -/
def listMaxInt : List Int → Option Int
  | [] => none
  | x :: xs => some (xs.foldl max x)

/-- The possible outcomes of `sanity_check`: pass, or one of its two
`raise Exception(...)` statements, each carrying the value interpolated
into the message. -/
inductive SanityOutcome
  | passed
  | belowThroughputFloor (v : Int)
  | aboveLatencyCeiling (v : ℚ)
  deriving DecidableEq, Repr

/-- `sanity_check(stats)`:
`stat1 = min(stats["opspersec"])`, raise when
`stat1 < MIN_ACCEPTABLE_OPS_PER_SEC`;
`stat2 = max(stats["resptimes"].keys()) / 1000`, raise when
`stat2 > MAX_ACCEPTABLE_RESPONSE_TIME`.  The outer `none` is the
uncaught `ValueError` of `min`/`max` on an empty sequence. -/
def sanity_check (stats : PFData) : Option SanityOutcome :=
  match listMinInt stats.opspersec with
  | none => none
  | some stat1 =>
    if stat1 < MIN_ACCEPTABLE_OPS_PER_SEC then
      some (SanityOutcome.belowThroughputFloor stat1)
    else
      match listMaxInt (stats.resptimes.map Prod.fst) with
      | none => none
      | some mx =>
        let stat2 : ℚ := (mx : ℚ) / 1000
        if stat2 > MAX_ACCEPTABLE_RESPONSE_TIME then
          some (SanityOutcome.aboveLatencyCeiling stat2)
        else some SanityOutcome.passed

/-! ## The completion-polling loop of run_pillowfights

The loop queries each pod's JSON status with
`pod_info["status"]["containerStatuses"][0]["state"]`, counts pods whose
container terminated with reason `constants.STATUS_COMPLETED`, records
them in `self.pods_info`, and breaks once the count reaches
`self.replicas`.  The whole per-pod loop, including the break test, sits
inside `try: ... except IndexError`.  After the loop, pods recorded as
`"Completed"` have their logs fetched and a recorded `"Error"` raises
`Exception("Pillowfight failed to complete")`. -/

/-- The container `state` dict: exactly one of the keys `"terminated"`
(with its `"reason"`), `"running"` or `"waiting"` is present, matching
the Kubernetes container-state object (the `reason` of a terminated
state is modelled as always present; no claim depends on its absence). -/
inductive StateDict
  | terminated (reason : String)
  | running
  | waiting
  deriving DecidableEq

/-- One entry of `containerStatuses` (the `"state"` key is modelled as
present; no claim depends on its absence). -/
structure ContainerStatus where
  state : StateDict
  deriving DecidableEq

/-- The `"status"` object of the pod JSON; `containerStatuses = none`
models a missing `"containerStatuses"` key. -/
structure PodStatus where
  containerStatuses : Option (List ContainerStatus)
  deriving DecidableEq

/-- The JSON returned by `oc get pods <pod> -o json`; `status = none`
models a missing `"status"` key. -/
structure PodInfo where
  status : Option PodStatus
  deriving DecidableEq

/-- Python exceptions that the subscript chain can raise: a missing dict
key raises `KeyError`, subscripting an empty list raises `IndexError`. -/
inductive PyErr
  | keyError
  | indexError
  deriving DecidableEq

/-- Modelled from the spec: `constants.STATUS_COMPLETED`, the terminal
reason string marking success (the `constants` module is not under
`src/`; the spec names the reason `"Completed"`). -/
def STATUS_COMPLETED : String := "Completed"

/-- The literal `"Completed"` compared in the log-fetch loop. -/
def completedStr : String := "Completed"

/-- The literal `"Error"` compared in the log-fetch loop. -/
def errorStr : String := "Error"

/-- `pf_status = pod_info["status"]["containerStatuses"][0]["state"]`,
with the exception each access can raise. -/
def getState (p : PodInfo) : Except PyErr StateDict :=
  match p.status with
  | none => Except.error PyErr.keyError
  | some st =>
    match st.containerStatuses with
    | none => Except.error PyErr.keyError
    | some [] => Except.error PyErr.indexError
    | some (c :: _) => Except.ok c.state

/-- `self.pods_info`, a Python dict from pod name to completion reason. -/
abbrev PodsInfo := List (String × String)

/-- The `for pf_pod in pillowfight_pods` loop body: classify each pod,
incrementing `counter` and recording the pod on a `"Completed"`
termination, doing nothing on any other terminated reason, on
`"running"`, or on a waiting state.  Returns the accumulated
`pods_info` together with the final counter, or the exception that
escaped the per-pod loop (state mutated before the exception persists,
`self.pods_info` being an attribute). -/
def pollBody (sf : String → PodInfo) :
    List String → PodsInfo → Nat → PodsInfo × Except PyErr Nat
  | [], info, counter => (info, Except.ok counter)
  | pod :: rest, info, counter =>
    match getState (sf pod) with
    | Except.error e => (info, Except.error e)
    | Except.ok (StateDict.terminated reason) =>
      if reason = STATUS_COMPLETED then
        pollBody sf rest (dictUpdate info pod reason) (counter + 1)
      else pollBody sf rest info counter
    | Except.ok StateDict.running => pollBody sf rest info counter
    | Except.ok StateDict.waiting => pollBody sf rest info counter

/-- Result of one `TimeoutSampler` iteration: `brk` when
`counter == self.replicas` broke the loop, `cont` when the iteration
finished without breaking or an `IndexError` was caught by the
`except IndexError` handler, `raised` when another exception escaped. -/
inductive IterOut
  | brk (info : PodsInfo)
  | cont (info : PodsInfo)
  | raised (info : PodsInfo) (e : PyErr)
  deriving DecidableEq

/-- One iteration of the polling loop: run the per-pod loop with
`counter = 0`, then the `if counter == self.replicas: break` test —
both inside `try: ... except IndexError`, so a caught `IndexError`
skips the break test as well. -/
def pollIteration (replicas : Nat) (sf : String → PodInfo)
    (pods : List String) (info : PodsInfo) : IterOut :=
  match pollBody sf pods info 0 with
  | (info2, Except.ok counter) =>
    if counter == replicas then IterOut.brk info2 else IterOut.cont info2
  | (info2, Except.error PyErr.indexError) => IterOut.cont info2
  | (info2, Except.error e) => IterOut.raised info2 e

/-- Outcome of the whole `for pillowfight_pods in TimeoutSampler(...)`
loop.  Each element of `iters` is one sample: the pod list returned by
`get_pod_name_by_pattern` and the status of each pod at that instant;
an exhausted list models the `TimeoutSampler` deadline expiring, which
raises its timeout error. -/
inductive PollOut
  | broke (info : PodsInfo)
  | timeout (info : PodsInfo)
  | errored (info : PodsInfo) (e : PyErr)

/-- The polling loop itself, threading `self.pods_info` (initially
empty in `run_pillowfights`) through the iterations. -/
def pollLoop (replicas : Nat) :
    List (List String × (String → PodInfo)) → PodsInfo → PollOut
  | [], info => PollOut.timeout info
  | (pods, sf) :: rest, info =>
    match pollIteration replicas sf pods info with
    | IterOut.brk i => PollOut.broke i
    | IterOut.cont i => pollLoop replicas rest i
    | IterOut.raised i e => PollOut.errored i e

/-- The log-fetch loop after polling:
`for pod, pf_completion_info in self.pods_info.items()`, fetching logs
for `"Completed"` entries and raising
`Exception("Pillowfight failed to complete")` at the first `"Error"`
entry (`some pod` is that raise; log fetching itself is outside the
model). -/
def fetchAndCheck : PodsInfo → Option String
  | [] => none
  | (pod, r) :: rest =>
    if r = completedStr then fetchAndCheck rest
    else if r = errorStr then some pod
    else fetchAndCheck rest

/-- Overall outcome of `run_pillowfights` from the start of the polling
loop: normal return, the explicit per-instance failure raise, the
`TimeoutSampler` timeout, or an uncaught exception from the status
queries. -/
inductive RunResult
  | completedRun (info : PodsInfo)
  | instanceRunFailure (pod : String)
  | pollTimeout (info : PodsInfo)
  | uncaughtError (e : PyErr)
  deriving DecidableEq

/-- `run_pillowfights` from `self.pods_info = {}` on: run the polling
loop, then the log-fetch loop. -/
def run_pillowfights (replicas : Nat)
    (iters : List (List String × (String → PodInfo))) : RunResult :=
  match pollLoop replicas iters [] with
  | PollOut.timeout info => RunResult.pollTimeout info
  | PollOut.errored _ e => RunResult.uncaughtError e
  | PollOut.broke info =>
    match fetchAndCheck info with
    | some pod => RunResult.instanceRunFailure pod
    | none => RunResult.completedRun info

/-- Does the run raise the per-instance failure exception? -/
def isInstanceFailure : RunResult → Bool
  | RunResult.instanceRunFailure _ => true
  | _ => false

/-- Did the iteration propagate an exception out of the polling loop? -/
def isRaised : IterOut → Bool
  | IterOut.raised _ _ => true
  | _ => false

/-! ## Derived views used in the theorem statements -/

/-- The dict write `resp_hist[k] = v` performed by one line, if any:
`some (k, v)` exactly when the line matches the histogram pattern and
all numeric conversions succeed. -/
def lineWrite (l : List Char) : Option (Int × Bucket) :=
  if histoMatch l then
    match bucketFields (splitWs (cleanLine l)) with
    | some (some kv) => some kv
    | _ => none
  else none

/-- Does the line write histogram key `k`? -/
def writesKey (l : List Char) (k : Int) : Bool :=
  match lineWrite l with
  | some (k0, _) => decide (k0 = k)
  | none => false

/-- The raw (pre-scaling) bounds of a histogram line: the first two
whitespace-separated integers of the cleaned line, when the line
matches the histogram pattern. -/
def rawBounds (l : List Char) : Option (Int × Int) :=
  if histoMatch l then
    match (splitWs (cleanLine l)).get? 0, (splitWs (cleanLine l)).get? 1 with
    | some p0, some p1 =>
      match pyInt p0, pyInt p1 with
      | some i1, some i2 => some (i1, i2)
      | _, _ => none
    | _, _ => none
  else none

/-- Every recorded completion reason is `STATUS_COMPLETED`. -/
def allCompleted (info : PodsInfo) : Prop :=
  ∀ pr ∈ info, pr.2 = STATUS_COMPLETED

/-- The `pods_info` carried by an iteration outcome. -/
def iterInfo : IterOut → PodsInfo
  | IterOut.brk i => i
  | IterOut.cont i => i
  | IterOut.raised i _ => i

/-- The `pods_info` carried by a polling-loop outcome. -/
def pollOutInfo : PollOut → PodsInfo
  | PollOut.broke i => i
  | PollOut.timeout i => i
  | PollOut.errored i _ => i

/-- Is the outcome the latency-ceiling failure? -/
def isAboveLatency : Option SanityOutcome → Bool
  | some (SanityOutcome.aboveLatencyCeiling _) => true
  | _ => false

/-! ## Concrete inputs used by counterexamples and witnesses -/

/-- The input of the spec scenario behind claim C8. -/
def c8input : String := "OPS/SEC 1500\n[0 - 100]us |###| - 5\n"

/-- A histogram line whose bounds are reversed (lower bound 100, upper
bound 5); it matches the histogram pattern. -/
def c3input : String := "[100 - 5]us |# - 3"

/-- A millisecond histogram line, used as witness input. -/
def msLine : List Char := "[1 - 3]ms |# - 2".toList

/-- A microsecond histogram line writing key 100. -/
def w5line1 : List Char := "[0 - 100]us |# - 7".toList

/-- A second microsecond histogram line writing key 100. -/
def w5line2 : List Char := "[2 - 100]us |# - 9".toList

/-- Input with two histogram lines writing the same key 100. -/
def c5input : String := "[0 - 100]us |# - 7\n[2 - 100]us |# - 9"

/-- A malformed throughput line: marker present, trailing token not an
integer. -/
def badOpsLine : List Char := "OPS/SEC abc".toList

/-- Input containing the malformed throughput line between two valid
ones. -/
def c7input : String := "OPS/SEC 2500\nOPS/SEC abc\nOPS/SEC 2600"

/-- A metrics record violating both thresholds: minimum throughput 1000
(< 2000) and maximum histogram key 3000000 µs = 3000 ms (> 2000 ms). -/
def rBoth : PFData := ⟨[1000], [(3000000, ⟨0, 1⟩)]⟩

/-- A metrics record passing both checks. -/
def rPass : PFData := ⟨[2500], [(1000, ⟨0, 1⟩)]⟩

/-- A second both-thresholds-violating record, witness input for C10. -/
def rBoth10 : PFData := ⟨[999], [(2500000, ⟨0, 2⟩)]⟩

/-- A pod whose status JSON lacks the `"status"` key. -/
def noStatusPod : PodInfo := ⟨none⟩

/-- A pod whose `containerStatuses` list is empty (not yet scheduled). -/
def emptyStatusPod : PodInfo := ⟨some ⟨some []⟩⟩

/-- A pod whose container terminated with reason `"Error"`. -/
def errPod : PodInfo := ⟨some ⟨some [⟨StateDict.terminated errorStr⟩]⟩⟩

/-- A pod whose container terminated with reason `"Completed"`. -/
def donePod : PodInfo := ⟨some ⟨some [⟨StateDict.terminated completedStr⟩]⟩⟩

/-- A pod whose container is running. -/
def runPod : PodInfo := ⟨some ⟨some [⟨StateDict.running⟩]⟩⟩

/-- A pod name. -/
def podA : String := "pillowfight-rbd-simple0"

/-- Another pod name. -/
def podB : String := "pillowfight-rbd-simple1"

/-- Status function for the C9 witness: `podA` has completed, `podB`
has an empty container-status list, everything else is running. -/
def sfC9 : String → PodInfo := fun p =>
  if p = podA then donePod else if p = podB then emptyStatusPod else runPod

/-! ## Dictionary lemmas -/

theorem dictGet_update_self {α β : Type} [DecidableEq α]
    (d : List (α × β)) (k : α) (v : β) :
    dictGet (dictUpdate d k v) k = some v := by
  unfold dictUpdate
  split
  · rename_i h
    unfold dictGet
    induction d with
    | nil => simp at h
    | cons p rest ih =>
      simp only [List.any_cons, Bool.or_eq_true, decide_eq_true_eq] at h
      simp only [List.map_cons]
      by_cases hp : p.1 = k
      · rw [if_pos hp, List.find?_cons_of_pos _ (by simp)]
        rfl
      · rw [if_neg hp, List.find?_cons_of_neg _ (by simpa using hp)]
        exact ih (h.resolve_left hp)
  · unfold dictGet
    rename_i h
    rw [List.find?_append]
    have hnone : d.find? (fun p => decide (p.1 = k)) = none := by
      rw [List.find?_eq_none]
      intro x hx hpx
      exact h (List.any_eq_true.mpr ⟨x, hx, hpx⟩)
    rw [hnone]
    simp

theorem find?_map_update_ne {α β : Type} [DecidableEq α]
    (d : List (α × β)) (k0 k : α) (v : β) (hne : k0 ≠ k) :
    List.find? (fun p => decide (p.1 = k))
        (d.map (fun p => if p.1 = k0 then (k0, v) else p)) =
      List.find? (fun p => decide (p.1 = k)) d := by
  induction d with
  | nil => rfl
  | cons p rest ih =>
    simp only [List.map_cons]
    by_cases hp : p.1 = k0
    · rw [if_pos hp]
      have hpk : ¬p.1 = k := fun hk => hne (hp ▸ hk)
      rw [List.find?_cons_of_neg _ (by simpa using hne),
        List.find?_cons_of_neg _ (by simpa using hpk)]
      exact ih
    · rw [if_neg hp]
      by_cases hpk : p.1 = k
      · rw [List.find?_cons_of_pos _ (by simpa using hpk),
          List.find?_cons_of_pos _ (by simpa using hpk)]
      · rw [List.find?_cons_of_neg _ (by simpa using hpk),
          List.find?_cons_of_neg _ (by simpa using hpk)]
        exact ih

theorem dictGet_update_ne {α β : Type} [DecidableEq α]
    (d : List (α × β)) (k0 k : α) (v : β) (hne : k0 ≠ k) :
    dictGet (dictUpdate d k0 v) k = dictGet d k := by
  unfold dictUpdate
  split
  · unfold dictGet
    rw [find?_map_update_ne d k0 k v hne]
  · unfold dictGet
    rw [List.find?_append]
    have h1 : List.find? (fun p => decide (p.1 = k)) [(k0, v)] = none := by
      simp [hne]
    rw [h1]
    simp

theorem mem_dictUpdate {α β : Type} [DecidableEq α]
    {d : List (α × β)} {k : α} {v : β} {x : α × β}
    (hx : x ∈ dictUpdate d k v) : x ∈ d ∨ x = (k, v) := by
  unfold dictUpdate at hx
  split at hx
  · rcases List.mem_map.mp hx with ⟨p, hp, hfp⟩
    by_cases hpk : p.1 = k
    · right
      rw [if_pos hpk] at hfp
      exact hfp.symm
    · left
      rw [if_neg hpk] at hfp
      exact hfp ▸ hp
  · rcases List.mem_append.mp hx with h | h
    · exact Or.inl h
    · right
      simpa using h

/-! ## Parser structure lemmas -/

/-- A line that passes the `OPS/SEC` prefix test starts with `'O'` and
therefore cannot match the histogram pattern, whose first character is
`'['`. -/
theorem histoMatch_of_ops (l : List Char)
    (h : strStartsWith opsMarker l = true) : histoMatch l = false := by
  cases l with
  | nil => exact absurd h (by decide)
  | cons c cs =>
    have hm : opsMarker = 'O' :: ['P', 'S', '/', 'S', 'E', 'C'] := rfl
    rw [hm] at h
    simp only [strStartsWith, Bool.and_eq_true, beq_iff_eq] at h
    obtain ⟨hc, -⟩ := h
    subst hc
    rfl

/-- A line whose trailing token fails integer conversion in the
`OPS/SEC` branch leaves the state unchanged: the `ValueError` is caught
and the histogram branch is skipped. -/
theorem processLine_ops_skip (st : PFData) (l : List Char)
    (hs : strStartsWith opsMarker l = true)
    (hbad : pyInt (pyStrip ((splitOnChar ' ' l).getLastD [])) = none) :
    processLine st l = some st := by
  unfold processLine
  rw [if_pos hs, hbad]

/-- `parseLines` distributes over list append. -/
theorem parseLines_append (xs ys : List (List Char)) (st : PFData) :
    parseLines st (xs ++ ys) =
      (parseLines st xs).bind (fun st1 => parseLines st1 ys) := by
  induction xs generalizing st with
  | nil => simp [parseLines]
  | cons l rest ih =>
    simp only [List.cons_append, parseLines]
    cases h : processLine st l with
    | none => simp
    | some st1 => simpa using ih st1

/-- Successful line processing changes the histogram exactly by the
line's dict write. -/
theorem processLine_resptimes (st : PFData) (l : List Char) (st' : PFData)
    (h : processLine st l = some st') :
    st'.resptimes =
      match lineWrite l with
      | none => st.resptimes
      | some (k, v) => dictUpdate st.resptimes k v := by
  unfold processLine at h
  unfold lineWrite
  by_cases hs : strStartsWith opsMarker l = true
  · have hm := histoMatch_of_ops l hs
    rw [if_pos hs] at h
    cases hpy : pyInt (pyStrip ((splitOnChar ' ' l).getLastD [])) with
    | none =>
      rw [hpy] at h
      simp only [Option.some.injEq] at h
      subst h
      simp [hm]
    | some n =>
      rw [hpy] at h
      unfold processBucket at h
      rw [hm] at h
      simp only [Bool.false_eq_true, if_false, Option.some.injEq] at h
      subst h
      simp [hm]
  · rw [if_neg hs] at h
    unfold processBucket at h
    by_cases hm : histoMatch l = true
    · rw [hm] at h
      simp only [if_true] at h
      rw [hm]
      simp only [if_true]
      cases hbf : bucketFields (splitWs (cleanLine l)) with
      | none => rw [hbf] at h; exact absurd h (by simp)
      | some o =>
        cases o with
        | none =>
          rw [hbf] at h
          simp only [Option.some.injEq] at h
          subst h
          rfl
        | some kv =>
          rw [hbf] at h
          simp only [Option.some.injEq] at h
          subst h
          rfl
    · simp only [Bool.not_eq_true] at hm
      rw [hm] at h
      simp only [Bool.false_eq_true, if_false, Option.some.injEq] at h
      subst h
      simp [hm]

/-- A successful dict write determines the raw bounds of the line, and
the stored pair is the raw pair either unscaled or scaled by 1000 in
both components. -/
theorem lineWrite_rawBounds (l : List Char) (k : Int) (v : Bucket)
    (h : lineWrite l = some (k, v)) :
    ∃ a b, rawBounds l = some (a, b) ∧
      ((k = b ∧ v.minindx = a) ∨ (k = b * 1000 ∧ v.minindx = a * 1000)) := by
  unfold lineWrite at h
  by_cases hm : histoMatch l = true
  · rw [hm] at h
    simp only [if_true] at h
    have hbf : bucketFields (splitWs (cleanLine l)) = some (some (k, v)) := by
      cases hb : bucketFields (splitWs (cleanLine l)) with
      | none => simp only [hb] at h; exact absurd h (by simp)
      | some o =>
        cases o with
        | none => simp only [hb] at h; exact absurd h (by simp)
        | some kv =>
          simp only [hb, Option.some.injEq] at h
          rw [h]
    unfold rawBounds
    rw [hm]
    simp only [if_true]
    unfold bucketFields at hbf
    cases h0 : (splitWs (cleanLine l)).get? 0 with
    | none => simp only [h0] at hbf; exact absurd hbf (by simp)
    | some p0 =>
    simp only [h0] at hbf
    cases hp0 : pyInt p0 with
    | none => simp only [hp0] at hbf; exact absurd hbf (by simp)
    | some i1 =>
    simp only [hp0] at hbf
    cases h1 : (splitWs (cleanLine l)).get? 1 with
    | none => simp only [h1] at hbf; exact absurd hbf (by simp)
    | some p1 =>
    simp only [h1] at hbf
    cases hp1 : pyInt p1 with
    | none => simp only [hp1] at hbf; exact absurd hbf (by simp)
    | some i2 =>
    simp only [hp1] at hbf
    cases h2 : (splitWs (cleanLine l)).get? 2 with
    | none => simp only [h2] at hbf; exact absurd hbf (by simp)
    | some p2 =>
    simp only [h2] at hbf
    cases h3 : (splitWs (cleanLine l)).get? 3 with
    | none => simp only [h3] at hbf; exact absurd hbf (by simp)
    | some p3 =>
    simp only [h3] at hbf
    cases hp3 : pyInt p3 with
    | none => simp only [hp3] at hbf; exact absurd hbf (by simp)
    | some n =>
    simp only [hp3, Option.some.injEq, Prod.mk.injEq] at hbf
    refine ⟨i1, i2, by simp [h0, h1, hp0, hp1], ?_⟩
    obtain ⟨hk, hv⟩ := hbf
    by_cases hms : p2 = msTok
    · right
      rw [if_pos hms] at hk hv
      exact ⟨hk.symm, by rw [← hv]⟩
    · left
      rw [if_neg hms] at hk hv
      exact ⟨hk.symm, by rw [← hv]⟩
  · simp only [Bool.not_eq_true] at hm
    rw [hm] at h
    exact absurd h (by simp)

/-! ## Histogram-invariant lemmas (claim C3) -/

/-- One line preserves the bound-ordering invariant whenever its raw
bounds are ordered. -/
theorem processLine_ordered (st : PFData) (l : List Char) (st' : PFData)
    (h : processLine st l = some st')
    (hord : ∀ a b, rawBounds l = some (a, b) → a ≤ b)
    (hinv : ∀ k v, (k, v) ∈ st.resptimes → v.minindx ≤ k) :
    ∀ k v, (k, v) ∈ st'.resptimes → v.minindx ≤ k := by
  intro k v hkv
  have hr := processLine_resptimes st l st' h
  cases hw : lineWrite l with
  | none =>
    simp only [hw] at hr
    exact hinv k v (hr ▸ hkv)
  | some kv0 =>
    obtain ⟨k0, v0⟩ := kv0
    simp only [hw] at hr
    rw [hr] at hkv
    rcases mem_dictUpdate hkv with hmem | heq
    · exact hinv k v hmem
    · obtain ⟨a, b, hraw, hcase⟩ := lineWrite_rawBounds l k0 v0 hw
      have hab := hord a b hraw
      have hk : k = k0 := congrArg Prod.fst heq
      have hv : v = v0 := congrArg Prod.snd heq
      rcases hcase with ⟨hk0, hm0⟩ | ⟨hk0, hm0⟩
      · rw [hv, hk, hm0, hk0]; exact hab
      · rw [hv, hk, hm0, hk0]; omega

/-- The whole line fold preserves the bound-ordering invariant. -/
theorem parseLines_ordered (lines : List (List Char)) (st r : PFData)
    (h : parseLines st lines = some r)
    (hord : ∀ l ∈ lines, ∀ a b, rawBounds l = some (a, b) → a ≤ b)
    (hinv : ∀ k v, (k, v) ∈ st.resptimes → v.minindx ≤ k) :
    ∀ k v, (k, v) ∈ r.resptimes → v.minindx ≤ k := by
  induction lines generalizing st with
  | nil =>
    simp only [parseLines, Option.some.injEq] at h
    subst h
    exact hinv
  | cons l rest ih =>
    simp only [parseLines] at h
    cases hp : processLine st l with
    | none => simp only [hp] at h; exact Option.noConfusion h
    | some st1 =>
      simp only [hp] at h
      exact ih st1 h (fun l2 hl2 => hord l2 (List.mem_cons_of_mem _ hl2))
        (processLine_ordered st l st1 hp (hord l (List.mem_cons_self _ _)) hinv)

/-! ## Overwrite lemmas (claim C5) -/

/-- A line that does not write key `k` leaves the entry at `k`
untouched. -/
theorem processLine_get_ne (st : PFData) (l : List Char) (st' : PFData)
    (k : Int) (h : processLine st l = some st')
    (hnw : writesKey l k = false) :
    dictGet st'.resptimes k = dictGet st.resptimes k := by
  have hr := processLine_resptimes st l st' h
  cases hw : lineWrite l with
  | none =>
    simp only [hw] at hr
    rw [hr]
  | some kv =>
    obtain ⟨k0, v0⟩ := kv
    simp only [hw] at hr
    rw [hr]
    apply dictGet_update_ne
    unfold writesKey at hnw
    simp only [hw] at hnw
    exact of_decide_eq_false hnw

/-- A run of lines none of which writes key `k` leaves the entry at `k`
untouched. -/
theorem parseLines_get_ne (lines : List (List Char)) (st r : PFData)
    (k : Int) (h : parseLines st lines = some r)
    (hnw : ∀ l ∈ lines, writesKey l k = false) :
    dictGet r.resptimes k = dictGet st.resptimes k := by
  induction lines generalizing st with
  | nil =>
    simp only [parseLines, Option.some.injEq] at h
    rw [h]
  | cons l rest ih =>
    simp only [parseLines] at h
    cases hp : processLine st l with
    | none => simp only [hp] at h; exact Option.noConfusion h
    | some st1 =>
      simp only [hp] at h
      rw [ih st1 h (fun l2 hl2 => hnw l2 (List.mem_cons_of_mem _ hl2))]
      exact processLine_get_ne st l st1 k hp (hnw l (List.mem_cons_self _ _))

/-- A line whose write succeeds yields a state that is defined and holds
exactly that entry at the written key. -/
theorem processLine_write (st : PFData) (l : List Char) (k : Int) (v : Bucket)
    (hw : lineWrite l = some (k, v)) (st' : PFData)
    (h : processLine st l = some st') :
    dictGet st'.resptimes k = some v := by
  have hr := processLine_resptimes st l st' h
  simp only [hw] at hr
  rw [hr]
  exact dictGet_update_self _ _ _

/-! ## Polling-loop lemmas (claim C1) -/

/-- The per-pod loop only ever records the reason `STATUS_COMPLETED`. -/
theorem pollBody_allCompleted (sf : String → PodInfo) (pods : List String)
    (info : PodsInfo) (ctr : Nat) (h : allCompleted info) :
    allCompleted (pollBody sf pods info ctr).1 := by
  induction pods generalizing info ctr with
  | nil => exact h
  | cons pod rest ih =>
    cases hs : getState (sf pod) with
    | error e => simp only [pollBody, hs]; exact h
    | ok s =>
      cases s with
      | terminated reason =>
        simp only [pollBody, hs]
        by_cases hr : reason = STATUS_COMPLETED
        · rw [if_pos hr]
          apply ih
          intro pr hpr
          rcases mem_dictUpdate hpr with hmem | heq
          · exact h pr hmem
          · rw [heq]; exact hr
        · rw [if_neg hr]
          exact ih info ctr h
      | running => simp only [pollBody, hs]; exact ih info ctr h
      | waiting => simp only [pollBody, hs]; exact ih info ctr h

/-- One polling iteration preserves the all-completed invariant of
`pods_info`. -/
theorem pollIteration_allCompleted (replicas : Nat) (sf : String → PodInfo)
    (pods : List String) (info : PodsInfo) (h : allCompleted info) :
    allCompleted (iterInfo (pollIteration replicas sf pods info)) := by
  unfold pollIteration
  have hb := pollBody_allCompleted sf pods info 0 h
  rcases hpb : pollBody sf pods info 0 with ⟨i, r⟩
  rw [hpb] at hb
  cases r with
  | ok c =>
    by_cases hc : (c == replicas) = true
    · simp only [hc, if_true]; exact hb
    · simp only [hc, if_false]; exact hb
  | error e =>
    cases e with
    | keyError => exact hb
    | indexError => exact hb

/-- The polling loop preserves the all-completed invariant across
iterations. -/
theorem pollLoop_allCompleted (replicas : Nat)
    (iters : List (List String × (String → PodInfo))) (info : PodsInfo)
    (h : allCompleted info) :
    allCompleted (pollOutInfo (pollLoop replicas iters info)) := by
  induction iters generalizing info with
  | nil => exact h
  | cons it rest ih =>
    obtain ⟨pods, sf⟩ := it
    simp only [pollLoop]
    have hi := pollIteration_allCompleted replicas sf pods info h
    cases hit : pollIteration replicas sf pods info with
    | brk i => rw [hit] at hi; exact hi
    | cont i => rw [hit] at hi; exact ih i hi
    | raised i e => rw [hit] at hi; exact hi

/-- The log-fetch loop never reaches its `"Error"` raise when every
recorded reason is `STATUS_COMPLETED`. -/
theorem fetchAndCheck_allCompleted (info : PodsInfo) (h : allCompleted info) :
    fetchAndCheck info = none := by
  induction info with
  | nil => rfl
  | cons pr rest ih =>
    obtain ⟨pod, r⟩ := pr
    have hr : r = STATUS_COMPLETED := h (pod, r) (List.mem_cons_self _ _)
    unfold fetchAndCheck
    rw [if_pos (by rw [hr]; rfl)]
    exact ih (fun pr2 hpr2 => h pr2 (List.mem_cons_of_mem _ hpr2))

/-! ## Per-pod loop decomposition (claims C6 and C9) -/

/-- The per-pod loop processes an appended list by running the first
part and, on success, continuing with its accumulated state. -/
theorem pollBody_append (sf : String → PodInfo) (l1 l2 : List String)
    (info : PodsInfo) (ctr : Nat) :
    pollBody sf (l1 ++ l2) info ctr =
      match pollBody sf l1 info ctr with
      | (i, Except.ok c) => pollBody sf l2 i c
      | (i, Except.error e) => (i, Except.error e) := by
  induction l1 generalizing info ctr with
  | nil => rfl
  | cons pod rest ih =>
    cases hs : getState (sf pod) with
    | error e => simp only [List.cons_append, pollBody, hs]
    | ok s =>
      cases s with
      | terminated reason =>
        simp only [List.cons_append, pollBody, hs]
        by_cases hr : reason = STATUS_COMPLETED
        · rw [if_pos hr, if_pos hr]
          exact ih _ _
        · rw [if_neg hr, if_neg hr]
          exact ih _ _
      | running => simp only [List.cons_append, pollBody, hs]; exact ih _ _
      | waiting => simp only [List.cons_append, pollBody, hs]; exact ih _ _

/-! ## Claim theorems -/

/-- Claim C2, counterexample: on a record violating both thresholds the
validator returns the throughput failure, even though the maximum
histogram key over 1000 strictly exceeds the latency ceiling, so
"fails with AboveLatencyCeiling iff max(keys)/1000 > ceiling" is false
as stated. -/
theorem pf_c2_counterexample :
    sanity_check rBoth = some (SanityOutcome.belowThroughputFloor 1000) ∧
    (3000000 : ℚ) / 1000 > MAX_ACCEPTABLE_RESPONSE_TIME ∧
    isAboveLatency (sanity_check rBoth) = false := by
  refine ⟨by decide, by norm_num [MAX_ACCEPTABLE_RESPONSE_TIME], by decide⟩

/-- Claim C2, amended: for a record with non-empty `opspersec` and
non-empty `resptimes`, `sanity_check` fails with the throughput error
iff `min(opspersec)` is below the floor; it fails with the latency
error iff the throughput check passes and `max(keys)/1000` exceeds the
ceiling (the throughput check is evaluated first); it passes otherwise. -/
theorem pf_c2_amended : ∀ (r : PFData) (m K : Int),
    listMinInt r.opspersec = some m →
    listMaxInt (r.resptimes.map Prod.fst) = some K →
    ((sanity_check r = some (SanityOutcome.belowThroughputFloor m)) ↔
      m < MIN_ACCEPTABLE_OPS_PER_SEC) ∧
    ((sanity_check r = some (SanityOutcome.aboveLatencyCeiling ((K : ℚ) / 1000))) ↔
      (¬ m < MIN_ACCEPTABLE_OPS_PER_SEC ∧
        (K : ℚ) / 1000 > MAX_ACCEPTABLE_RESPONSE_TIME)) ∧
    ((sanity_check r = some SanityOutcome.passed) ↔
      (¬ m < MIN_ACCEPTABLE_OPS_PER_SEC ∧
        ¬ (K : ℚ) / 1000 > MAX_ACCEPTABLE_RESPONSE_TIME)) := by
  intro r m K hmin hmax
  simp only [sanity_check, hmin, hmax]
  by_cases h1 : m < MIN_ACCEPTABLE_OPS_PER_SEC
  · simp [h1]
  · by_cases h2 : (K : ℚ) / 1000 > MAX_ACCEPTABLE_RESPONSE_TIME
    · simp [h1, h2]
    · simp [h1, h2]

/-- Witness for the amended claim C2, on a record that passes both
checks. -/
theorem pf_c2_amended_witness :
    listMinInt rPass.opspersec = some 2500 ∧
    listMaxInt (rPass.resptimes.map Prod.fst) = some 1000 ∧
    (((sanity_check rPass = some (SanityOutcome.belowThroughputFloor 2500)) ↔
        (2500 : Int) < MIN_ACCEPTABLE_OPS_PER_SEC) ∧
     ((sanity_check rPass = some (SanityOutcome.aboveLatencyCeiling ((1000 : ℚ) / 1000))) ↔
        (¬ (2500 : Int) < MIN_ACCEPTABLE_OPS_PER_SEC ∧
          ((1000 : Int) : ℚ) / 1000 > MAX_ACCEPTABLE_RESPONSE_TIME)) ∧
     ((sanity_check rPass = some SanityOutcome.passed) ↔
        (¬ (2500 : Int) < MIN_ACCEPTABLE_OPS_PER_SEC ∧
          ¬ ((1000 : Int) : ℚ) / 1000 > MAX_ACCEPTABLE_RESPONSE_TIME))) :=
  ⟨rfl, rfl, pf_c2_amended rPass 2500 1000 rfl rfl⟩

/-- Claim C10: when a record violates both thresholds, the validator
raises only the throughput error — the throughput check is evaluated
first and the latency check is never reached. -/
theorem pf_c10_throughput_first : ∀ (r : PFData) (m K : Int),
    listMinInt r.opspersec = some m →
    listMaxInt (r.resptimes.map Prod.fst) = some K →
    m < MIN_ACCEPTABLE_OPS_PER_SEC →
    (K : ℚ) / 1000 > MAX_ACCEPTABLE_RESPONSE_TIME →
    sanity_check r = some (SanityOutcome.belowThroughputFloor m) := by
  intro r m K hmin hmax h1 h2
  simp only [sanity_check, hmin]
  rw [if_pos h1]

/-- Witness for claim C10 on a concrete both-violating record. -/
theorem pf_c10_throughput_first_witness :
    listMinInt rBoth10.opspersec = some 999 ∧
    listMaxInt (rBoth10.resptimes.map Prod.fst) = some 2500000 ∧
    (999 : Int) < MIN_ACCEPTABLE_OPS_PER_SEC ∧
    (2500000 : ℚ) / 1000 > MAX_ACCEPTABLE_RESPONSE_TIME ∧
    sanity_check rBoth10 = some (SanityOutcome.belowThroughputFloor 999) :=
  ⟨rfl, rfl, by decide, by norm_num [MAX_ACCEPTABLE_RESPONSE_TIME],
    pf_c10_throughput_first rBoth10 999 2500000 rfl rfl (by decide)
      (by norm_num [MAX_ACCEPTABLE_RESPONSE_TIME])⟩

/-- Claim C8, counterexample: on the spec scenario input, the histogram
line `[0 - 100]us |###| - 5` does not match the pattern (the closing
bar after the fill is rejected by `\|#* - \d+`), so the parsed
`resptimes` is empty rather than `{100: {minindx: 0, number: 5}}`. -/
theorem pf_c8_counterexample :
    parse_pillowfight_log c8input = some ⟨[1500], []⟩ ∧
    (parse_pillowfight_log c8input).bind (fun r => dictGet r.resptimes 100) =
      none :=
  ⟨by decide, by decide⟩

/-- Claim C8, amended: on the scenario input, `parse_pillowfight_log`
returns `opspersec = [1500]` with an empty histogram, and validating
that record against the default thresholds fails with the throughput
error reporting 1500. -/
theorem pf_c8_amended :
    parse_pillowfight_log c8input = some ⟨[1500], []⟩ ∧
    sanity_check ⟨[1500], []⟩ =
      some (SanityOutcome.belowThroughputFloor 1500) :=
  ⟨by decide, by decide⟩

/-- Claim C3, counterexample: the bounds-reversed line
`[100 - 5]us |# - 3` matches the histogram pattern and is stored as key
5 with `minindx = 100`, violating `minindx ≤ key` since `5 < 100`. -/
theorem pf_c3_counterexample :
    parse_pillowfight_log c3input = some ⟨[], [(5, ⟨100, 3⟩)]⟩ ∧
    dictGet ([((5 : Int), (⟨100, 3⟩ : Bucket))]) 5 = some ⟨100, 3⟩ ∧
    (5 : Int) < 100 :=
  ⟨by decide, by decide, by decide⟩

/-- Claim C3, amended: if every line of the input that matches the
histogram pattern has its raw lower bound at most its raw upper bound,
then every bucket of the parsed record satisfies `minindx ≤ key`. -/
theorem pf_c3_amended : ∀ (s : String) (r : PFData),
    parse_pillowfight_log s = some r →
    (∀ l ∈ splitOnChar '\n' s.toList, ∀ a b, rawBounds l = some (a, b) → a ≤ b) →
    ∀ k v, (k, v) ∈ r.resptimes → v.minindx ≤ k := by
  intro s r h hord
  exact parseLines_ordered (splitOnChar '\n' s.toList) ⟨[], []⟩ r h hord
    (fun k v hv => absurd hv (List.not_mem_nil _))

/-- Witness for the amended claim C3 on a two-line ordered input. -/
theorem pf_c3_amended_witness :
    parse_pillowfight_log c5input = some ⟨[], [(100, ⟨2, 9⟩)]⟩ ∧
    (∀ l ∈ splitOnChar '\n' c5input.toList,
      ∀ a b, rawBounds l = some (a, b) → a ≤ b) ∧
    (∀ k v, (k, v) ∈ ([((100 : Int), (⟨2, 9⟩ : Bucket))] : Hist) →
      v.minindx ≤ k) := by
  have hord : ∀ l ∈ splitOnChar '\n' c5input.toList,
      ∀ a b, rawBounds l = some (a, b) → a ≤ b := by
    have hsplit : splitOnChar '\n' c5input.toList = [w5line1, w5line2] := by
      decide
    rw [hsplit]
    intro l hl a b hab
    rcases List.mem_cons.mp hl with rfl | hl2
    · have h1 : rawBounds w5line1 = some (0, 100) := by decide
      rw [h1] at hab
      simp only [Option.some.injEq, Prod.mk.injEq] at hab
      omega
    · rcases List.mem_cons.mp hl2 with rfl | hl3
      · have h2 : rawBounds w5line2 = some (2, 100) := by decide
        rw [h2] at hab
        simp only [Option.some.injEq, Prod.mk.injEq] at hab
        omega
      · exact absurd hl3 (List.not_mem_nil _)
  exact ⟨by decide, hord,
    fun k v hv =>
      pf_c3_amended c5input ⟨[], [(100, ⟨2, 9⟩)]⟩ (by decide) hord k v hv⟩

/-- Claim C4: for a histogram line whose stored write succeeds, a
millisecond unit tag means both stored bounds are the raw parsed bounds
times 1000, and a microsecond unit tag means they are stored unscaled. -/
theorem pf_c4_ms_scaling : ∀ (l : List Char) (k : Int) (v : Bucket)
    (p0 p1 p2 : List Char) (i1 i2 : Int),
    lineWrite l = some (k, v) →
    (splitWs (cleanLine l)).get? 0 = some p0 →
    (splitWs (cleanLine l)).get? 1 = some p1 →
    (splitWs (cleanLine l)).get? 2 = some p2 →
    pyInt p0 = some i1 →
    pyInt p1 = some i2 →
    ((p2 = msTok → k = i2 * 1000 ∧ v.minindx = i1 * 1000) ∧
     (p2 = usTok → k = i2 ∧ v.minindx = i1)) := by
  intro l k v p0 p1 p2 i1 i2 hw hg0 hg1 hg2 hpy0 hpy1
  have hm : histoMatch l = true := by
    by_contra hmf
    simp only [Bool.not_eq_true] at hmf
    unfold lineWrite at hw
    rw [hmf] at hw
    exact absurd hw (by simp)
  have hbf : bucketFields (splitWs (cleanLine l)) = some (some (k, v)) := by
    unfold lineWrite at hw
    rw [hm] at hw
    simp only [if_true] at hw
    cases hb : bucketFields (splitWs (cleanLine l)) with
    | none => simp only [hb] at hw; exact absurd hw (by simp)
    | some o =>
      cases o with
      | none => simp only [hb] at hw; exact absurd hw (by simp)
      | some kv =>
        simp only [hb, Option.some.injEq] at hw
        rw [hw]
  unfold bucketFields at hbf
  simp only [hg0, hpy0, hg1, hpy1, hg2] at hbf
  cases h3 : (splitWs (cleanLine l)).get? 3 with
  | none => simp only [h3] at hbf; exact absurd hbf (by simp)
  | some p3 =>
  simp only [h3] at hbf
  cases hp3 : pyInt p3 with
  | none => simp only [hp3] at hbf; exact absurd hbf (by simp)
  | some n =>
  simp only [hp3, Option.some.injEq, Prod.mk.injEq] at hbf
  obtain ⟨hk, hv⟩ := hbf
  constructor
  · intro hms
    rw [if_pos hms] at hk hv
    exact ⟨hk.symm, by rw [← hv]⟩
  · intro hus
    have hne : ¬ p2 = msTok := by rw [hus]; decide
    rw [if_neg hne] at hk hv
    exact ⟨hk.symm, by rw [← hv]⟩

/-- Witness for claim C4 on the line `[1 - 3]ms |# - 2`: raw bounds 1
and 3, stored as key 3000 with `minindx` 1000. -/
theorem pf_c4_ms_scaling_witness :
    lineWrite msLine = some (3000, ⟨1000, 2⟩) ∧
    (splitWs (cleanLine msLine)).get? 2 = some msTok ∧
    ((msTok = msTok → (3000 : Int) = 3 * 1000 ∧
        (Bucket.mk 1000 2).minindx = 1 * 1000) ∧
     (msTok = usTok → (3000 : Int) = 3 ∧ (Bucket.mk 1000 2).minindx = 1)) :=
  ⟨by decide, by decide,
    pf_c4_ms_scaling msLine 3000 ⟨1000, 2⟩ ['1'] ['3'] msTok 1 3
      (by decide) (by decide) (by decide) (by decide) (by decide) (by decide)⟩

/-- Claim C5: when a line writes histogram key `k` and no later line
writes `k` again, the parsed record holds that line's value at `k` —
in particular, of two lines writing the same key, the later one wins. -/
theorem pf_c5_last_write_wins : ∀ (s : String) (pre post : List (List Char))
    (l2 : List Char) (r : PFData) (k : Int) (v : Bucket),
    splitOnChar '\n' s.toList = pre ++ l2 :: post →
    lineWrite l2 = some (k, v) →
    post.all (fun l => !(writesKey l k)) = true →
    parse_pillowfight_log s = some r →
    dictGet r.resptimes k = some v := by
  intro s pre post l2 r k v hsplit hw hall h
  unfold parse_pillowfight_log at h
  rw [hsplit, parseLines_append] at h
  cases hpre : parseLines ⟨[], []⟩ pre with
  | none => rw [hpre] at h; exact absurd h (by simp)
  | some st1 =>
    rw [hpre] at h
    have h2 : parseLines st1 (l2 :: post) = some r := h
    simp only [parseLines] at h2
    cases hpl : processLine st1 l2 with
    | none => simp only [hpl] at h2; exact Option.noConfusion h2
    | some st2 =>
      simp only [hpl] at h2
      have hnw : ∀ l ∈ post, writesKey l k = false := by
        intro l hl
        have hb := List.all_eq_true.mp hall l hl
        simpa using hb
      rw [parseLines_get_ne post st2 r k h2 hnw]
      exact processLine_write st1 l2 k v hw st2 hpl

/-- Witness for claim C5: two lines write key 100; the record holds the
later line's value `{minindx: 2, number: 9}`. -/
theorem pf_c5_last_write_wins_witness :
    splitOnChar '\n' c5input.toList = [w5line1] ++ w5line2 :: [] ∧
    lineWrite w5line2 = some (100, ⟨2, 9⟩) ∧
    List.all [] (fun l => !(writesKey l 100)) = true ∧
    parse_pillowfight_log c5input = some ⟨[], [(100, ⟨2, 9⟩)]⟩ ∧
    dictGet ([((100 : Int), (⟨2, 9⟩ : Bucket))]) 100 = some ⟨2, 9⟩ :=
  ⟨by decide, by decide, by decide, by decide,
    pf_c5_last_write_wins c5input [w5line1] [] w5line2 ⟨[], [(100, ⟨2, 9⟩)]⟩
      100 ⟨2, 9⟩ (by decide) (by decide) (by decide) (by decide)⟩

/-- Claim C7: a line that starts with the `OPS/SEC` marker but whose
trailing token is not a valid integer contributes nothing: parsing the
input equals parsing the same lines with that line removed (no
exception, nothing appended, every remaining line still processed). -/
theorem pf_c7_malformed_ops_skipped : ∀ (s : String)
    (pre post : List (List Char)) (bad : List Char),
    splitOnChar '\n' s.toList = pre ++ bad :: post →
    strStartsWith opsMarker bad = true →
    pyInt (pyStrip ((splitOnChar ' ' bad).getLastD [])) = none →
    parse_pillowfight_log s = parseLines ⟨[], []⟩ (pre ++ post) := by
  intro s pre post bad hsplit hs hbad
  unfold parse_pillowfight_log
  rw [hsplit, parseLines_append, parseLines_append]
  cases hpre : parseLines ⟨[], []⟩ pre with
  | none => rfl
  | some st =>
    show parseLines st (bad :: post) = parseLines st post
    simp only [parseLines, processLine_ops_skip st bad hs hbad]

/-- Witness for claim C7 on input containing `OPS/SEC abc` between two
valid throughput lines. -/
theorem pf_c7_malformed_ops_skipped_witness :
    splitOnChar '\n' c7input.toList =
      (splitOnChar '\n' c7input.toList).take 1 ++
        badOpsLine :: (splitOnChar '\n' c7input.toList).drop 2 ∧
    strStartsWith opsMarker badOpsLine = true ∧
    pyInt (pyStrip ((splitOnChar ' ' badOpsLine).getLastD [])) = none ∧
    parse_pillowfight_log c7input =
      parseLines ⟨[], []⟩
        ((splitOnChar '\n' c7input.toList).take 1 ++
          (splitOnChar '\n' c7input.toList).drop 2) :=
  ⟨by decide, by decide, by decide,
    pf_c7_malformed_ops_skipped c7input _ _ badOpsLine
      (by decide) (by decide) (by decide)⟩

/-- Claim C1 (code bug evidence): the polling loop records a pod in
`pods_info` only under the `Completed` reason, so the `"Error"` branch
of the log-fetch loop is unreachable and `run_pillowfights` can never
raise the per-instance failure; with a single pod terminated with
reason `"Error"`, every iteration leaves `pods_info` empty and the run
ends in the sampler timeout instead of the claimed immediate failure. -/
theorem pf_c1_instance_failure_unreachable :
    (∀ (replicas : Nat) (iters : List (List String × (String → PodInfo))),
      isInstanceFailure (run_pillowfights replicas iters) = false) ∧
    run_pillowfights 1 (List.replicate 4 ([podA], fun _ => errPod)) =
      RunResult.pollTimeout [] := by
  constructor
  · intro replicas iters
    have hac := pollLoop_allCompleted replicas iters []
      (fun pr hpr => absurd hpr (List.not_mem_nil _))
    cases hpl : pollLoop replicas iters [] with
    | timeout info => simp [run_pillowfights, hpl, isInstanceFailure]
    | errored info e => simp [run_pillowfights, hpl, isInstanceFailure]
    | broke info =>
      rw [hpl] at hac
      simp [run_pillowfights, hpl, fetchAndCheck_allCompleted info hac,
        isInstanceFailure]
  · decide

/-- Claim C6, counterexample: a status response missing the `"status"`
field raises `KeyError`, which is not caught by the `except IndexError`
handler and propagates out of the polling loop — refuting "absence of
expected fields is never propagated as an error". -/
theorem pf_c6_counterexample :
    run_pillowfights 1 [([podA], fun _ => noStatusPod)] =
      RunResult.uncaughtError PyErr.keyError := by
  decide

/-- Claim C6, amended: the only tolerated absence is the one raising
`IndexError` (an empty container-status list): it ends the iteration as
"not yet terminal" with the already-recorded outcomes kept and nothing
propagated; an iteration propagates an exception only for `KeyError`
(a missing `"status"` or `"containerStatuses"` field). -/
theorem pf_c6_amended : ∀ (replicas : Nat) (sf : String → PodInfo)
    (pods : List String) (info i : PodsInfo) (r : Except PyErr Nat),
    pollBody sf pods info 0 = (i, r) →
    ((r = Except.error PyErr.indexError →
        pollIteration replicas sf pods info = IterOut.cont i) ∧
     (isRaised (pollIteration replicas sf pods info) = true →
        r = Except.error PyErr.keyError)) := by
  intro replicas sf pods info i r h
  cases r with
  | ok c =>
    refine ⟨fun hr => Except.noConfusion hr, fun hru => ?_⟩
    simp only [pollIteration, h] at hru
    by_cases hc : (c == replicas) = true
    · rw [if_pos hc] at hru
      exact absurd hru (by simp [isRaised])
    · rw [if_neg hc] at hru
      exact absurd hru (by simp [isRaised])
  | error e =>
    cases e with
    | indexError =>
      refine ⟨fun _ => ?_, fun hru => ?_⟩
      · simp [pollIteration, h]
      · simp [pollIteration, h, isRaised] at hru
    | keyError =>
      refine ⟨fun hr => ?_, fun _ => rfl⟩
      · exact absurd hr (by simp)

/-- Witness for the amended claim C6: one pod with an empty
container-status list gives an `IndexError` iteration that continues
with `pods_info` unchanged. -/
theorem pf_c6_amended_witness :
    pollBody (fun _ => emptyStatusPod) [podA] [] 0 =
      ([], Except.error PyErr.indexError) ∧
    (((Except.error PyErr.indexError : Except PyErr Nat) =
        Except.error PyErr.indexError →
      pollIteration 1 (fun _ => emptyStatusPod) [podA] [] = IterOut.cont []) ∧
     (isRaised (pollIteration 1 (fun _ => emptyStatusPod) [podA] []) = true →
      (Except.error PyErr.indexError : Except PyErr Nat) =
        Except.error PyErr.keyError)) :=
  ⟨rfl,
    pf_c6_amended 1 (fun _ => emptyStatusPod) [podA] [] []
      (Except.error PyErr.indexError) rfl⟩

/-- Claim C9: an `IndexError` while querying one pod aborts the whole
per-pod loop of that iteration — the pods after the failing one are not
classified, the iteration ends as a caught continue carrying only the
outcomes accumulated before the failure, and their classification is
left to the next poll. -/
theorem pf_c9_iteration_aborts : ∀ (replicas : Nat) (sf : String → PodInfo)
    (l1 : List String) (bad : String) (l2 : List String)
    (info i : PodsInfo) (c : Nat),
    getState (sf bad) = Except.error PyErr.indexError →
    pollBody sf l1 info 0 = (i, Except.ok c) →
    pollIteration replicas sf (l1 ++ bad :: l2) info = IterOut.cont i := by
  intro replicas sf l1 bad l2 info i c hbad h1
  have hb : pollBody sf (l1 ++ bad :: l2) info 0 =
      (i, Except.error PyErr.indexError) := by
    rw [pollBody_append]
    simp only [h1, pollBody, hbad]
  simp [pollIteration, hb]

/-- Witness for claim C9: the completed pod before the failing query is
recorded, the pod after it is not, and the iteration continues. -/
theorem pf_c9_iteration_aborts_witness :
    getState (sfC9 podB) = Except.error PyErr.indexError ∧
    pollBody sfC9 [podA] [] 0 = ([(podA, STATUS_COMPLETED)], Except.ok 1) ∧
    pollIteration 2 sfC9 ([podA] ++ podB :: [podA]) [] =
      IterOut.cont [(podA, STATUS_COMPLETED)] :=
  ⟨rfl, rfl,
    pf_c9_iteration_aborts 2 sfC9 [podA] podB [podA] []
      [(podA, STATUS_COMPLETED)] 1 rfl rfl⟩

end Pillowfight
